import Mathlib

/-!
Verification development for the `pyadics` repository, a bounded-precision
p-adic floating-point numeral system (`pyadics/pfloat.py`).

Embedding conventions:
* Python arbitrary-precision integers are `ℤ`; Python `//` (floor division) is
  `Int.fdiv`, Python `%` is `Int.emod` (`%` on `ℤ`), which agree with Python's
  floor semantics because every divisor/modulus in the source is positive.
* The `PAdicFloat` class becomes a structure of its three instance fields
  `prime`, `significand`, `exponent`.
* `pow(a, -1, p)` (the Python built-in used by `_invmod`) is modelled by an
  extended-Euclid computation returning the unique inverse in `[0, p)`, as an
  `Option` that is `none` exactly when the base is not invertible (the source
  raises `ValueError` there); the built-in is modelled for positive modulus,
  the only case the source exercises.
* Binary operators coerce an integer operand via the integer constructor with
  the left operand's prime, exactly as the source does.  On two `PAdicFloat`
  operands with different primes the source returns `NotImplemented`; every
  operator here is modelled on operands sharing a prime (all claims restrict
  to that case) and stamps `self`'s prime on the result, as the source does.
* Exceptions become `Except PError` (or `Option` where only one error kind can
  occur): `typeError` for Python `TypeError`, `valueError` for malformed raw
  construction, `domainError` for the convergence-domain `ValueError` of the
  series functions, `invalidInverse` for `pow(a, -1, p)` on a non-unit.
-/

deriving instance DecidableEq for Except

set_option maxRecDepth 100000

/-- `_PADIC_PRECISION = 65`: number of stored p-adic digits. -/
def _PADIC_PRECISION : ℕ := 65

/-- `_MAX_PADIC_EXPONENT = 64`. -/
def _MAX_PADIC_EXPONENT : ℤ := 64

/-- `_MIN_PADIC_EXPONENT = 1 - _MAX_PADIC_EXPONENT = -63`. -/
def _MIN_PADIC_EXPONENT : ℤ := 1 - _MAX_PADIC_EXPONENT

/-- Error kinds of the source, per its `raise` sites. -/
inductive PError where
  | typeError
  | valueError
  | domainError
  | invalidInverse
deriving DecidableEq

/-- The `PAdicFloat` class: instance fields `prime`, `significand`,
`exponent` (all Python ints). -/
structure PAdicFloat where
  prime : ℤ
  significand : ℤ
  exponent : ℤ
deriving DecidableEq

/-- Fueled core of `_valuationFromInt`'s `while i % p == 0` loop, on the
magnitude of the integer.  The guards `2 ≤ p` and `n ≠ 0` make the function
total: the source's loop diverges for `p ≤ 1` and is never entered with
`i = 0` (that case returns before the loop); on `2 ≤ p`, `n ≠ 0` the fuel
`n` always suffices, so the fueled function computes exactly the loop. -/
def natValuationAux (p : ℕ) : ℕ → ℕ → ℕ
  | 0, _ => 0
  | fuel+1, n => if 2 ≤ p ∧ n % p = 0 ∧ n ≠ 0 then natValuationAux p fuel (n / p) + 1 else 0

/-- Number of times `p` divides `n` (for `2 ≤ p`, `n ≠ 0`). -/
def natValuation (p n : ℕ) : ℕ := natValuationAux p n n

/-- `PAdicFloat._valuationFromInt(i, p)`: `_MAX_PADIC_EXPONENT` for `i = 0`,
else the exponent of `p` in `i`.  For `2 ≤ p` the source's signed loop agrees
with the valuation of `|i|`, since `p ∣ i ↔ p ∣ |i|` and the floor quotient of
an exact division is the exact quotient. -/
def _valuationFromInt (i p : ℤ) : ℕ :=
  if i = 0 then 64 else natValuation p.toNat i.natAbs

/-- Extended Euclid with explicit fuel (structural recursion so that the
kernel can evaluate it): returns `(g, x, y)` with `x*a + y*b = g = gcd a b`
whenever `a ≤ fuel`. -/
def xgcdF : ℕ → ℕ → ℕ → ℕ × ℤ × ℤ
  | 0, _, b => (b, 0, 1)
  | _+1, 0, b => (b, 0, 1)
  | fuel+1, a+1, b =>
    let q := b / (a+1)
    let r := b % (a+1)
    let t := xgcdF fuel r (a+1)
    (t.1, t.2.2 - q * t.2.1, t.2.1)

/-- The Python built-in `pow(a, -1, p)`: the unique inverse of `a` modulo `p`
in `[0, p)`, or `none` (the built-in raises `ValueError`) when `a` is not a
unit modulo `p`.  Modelled for positive modulus, the only case exercised. -/
def pyPowInv (a p : ℤ) : Option ℤ :=
  if p ≤ 0 then none
  else
    let a' := (a % p).toNat
    let t := xgcdF a' a' p.toNat
    if t.1 = 1 then some (t.2.1 % p) else none

/-- The `for i in range(2, power+1)` Hensel-lifting loop of `_invmod`, with
`b` initialised to the base inverse `c`:
`b ← (b - (a*b - 1)*c) % p**i` at step `i`. -/
def henselIter (a c p : ℤ) : ℕ → ℤ
  | 0 => c
  | 1 => c
  | k+2 => (henselIter a c p (k+1) - (a * henselIter a c p (k+1) - 1) * c) % p ^ (k+2)

/-- `_invmod(a, p, power)`: base inverse `c = pow(a, -1, p)` (failure of the
built-in propagates as `none`), then the Hensel-lifting loop. -/
def _invmod (a p : ℤ) (power : ℕ) : Option ℤ :=
  (pyPowInv a p).map fun c => henselIter a c p power

/-- `PAdicFloat.NaN(prime)`. -/
def PAdicFloat.NaN (prime : ℤ) : PAdicFloat :=
  ⟨prime, 0, _MIN_PADIC_EXPONENT - 1⟩

/-- `PAdicFloat.inf(prime)`. -/
def PAdicFloat.inf (prime : ℤ) : PAdicFloat :=
  ⟨prime, 1, _MIN_PADIC_EXPONENT - 1⟩

/-- `PAdicFloat.iszero`. -/
def PAdicFloat.iszero (x : PAdicFloat) : Bool :=
  x.exponent == _MAX_PADIC_EXPONENT && x.significand == 0

/-- `PAdicFloat.isinf`. -/
def PAdicFloat.isinf (x : PAdicFloat) : Bool :=
  x.exponent == _MIN_PADIC_EXPONENT - 1 && x.significand == 1

/-- `PAdicFloat.isNaN`. -/
def PAdicFloat.isNaN (x : PAdicFloat) : Bool :=
  x.exponent == _MIN_PADIC_EXPONENT - 1 && x.significand == 0

/-- The integer branch of `PAdicFloat.__new__`:
`exponent = _valuationFromInt(n, prime)`;
`significand = (n // prime**exponent) % prime**_PADIC_PRECISION`. -/
def PAdicFloat.ofInt (n prime : ℤ) : PAdicFloat :=
  let e := _valuationFromInt n prime
  ⟨prime, (n.fdiv (prime ^ e)) % prime ^ _PADIC_PRECISION, (e : ℤ)⟩

/-- The `Fraction` branch of `PAdicFloat.__new__`, on the (already reduced)
numerator and denominator of the fraction; `none` when `_invmod` fails. -/
def PAdicFloat.ofFraction (num dem prime : ℤ) : Option PAdicFloat :=
  let numval := _valuationFromInt num prime
  if numval = 0 then
    let demval := _valuationFromInt dem prime
    let unitdem := dem.fdiv (prime ^ demval)
    (_invmod unitdem prime _PADIC_PRECISION).map fun deminverse =>
      ⟨prime, (num * deminverse) % prime ^ _PADIC_PRECISION, -(demval : ℤ)⟩
  else
    (_invmod dem prime _PADIC_PRECISION).map fun deminverse =>
      ⟨prime, (num.fdiv (prime ^ numval) * deminverse) % prime ^ _PADIC_PRECISION, (numval : ℤ)⟩

/-- `PAdicFloat.normalize`. -/
def PAdicFloat.normalize (x : PAdicFloat) : PAdicFloat :=
  if x.exponent < _MIN_PADIC_EXPONENT ∧ x.significand = 0 then
    ⟨x.prime, 0, _MIN_PADIC_EXPONENT - 1⟩
  else if x.exponent < _MIN_PADIC_EXPONENT then
    ⟨x.prime, 1, _MIN_PADIC_EXPONENT - 1⟩
  else if x.exponent > _MAX_PADIC_EXPONENT then
    ⟨x.prime, 0, _MAX_PADIC_EXPONENT⟩
  else if x.significand = 0 then
    ⟨x.prime, 0, _MAX_PADIC_EXPONENT⟩
  else
    let e := _valuationFromInt x.significand x.prime
    ⟨x.prime, (x.significand.fdiv (x.prime ^ e)) % x.prime ^ _PADIC_PRECISION,
      x.exponent + (e : ℤ)⟩

/-- `PAdicFloat.__mul__` on operands sharing a prime. -/
def PAdicFloat.mul (x y : PAdicFloat) : PAdicFloat :=
  let a := x.normalize
  let b := y.normalize
  if a.isNaN || b.isNaN then PAdicFloat.NaN x.prime
  else if a.isinf || b.isinf then
    if a.iszero || b.iszero then PAdicFloat.NaN x.prime
    else PAdicFloat.inf x.prime
  else if a.exponent + b.exponent > _MAX_PADIC_EXPONENT then
    ⟨x.prime, 0, _MAX_PADIC_EXPONENT⟩
  else
    ⟨x.prime, (a.significand * b.significand) % x.prime ^ _PADIC_PRECISION,
      a.exponent + b.exponent⟩

/-- `PAdicFloat.__neg__`: `self * -1`, the `-1` coerced through the integer
constructor with `self`'s prime. -/
def PAdicFloat.neg (x : PAdicFloat) : PAdicFloat :=
  x.mul (PAdicFloat.ofInt (-1) x.prime)

/-- `PAdicFloat.__add__` on operands sharing a prime. -/
def PAdicFloat.add (x y : PAdicFloat) : PAdicFloat :=
  let a := x.normalize
  let b := y.normalize
  if a.isNaN || b.isNaN then PAdicFloat.NaN x.prime
  else if a.isinf || b.isinf then PAdicFloat.inf x.prime
  else if a.exponent = b.exponent then
    let v := _valuationFromInt (a.significand + b.significand) x.prime
    if (v : ℤ) > _MAX_PADIC_EXPONENT - a.exponent then
      ⟨x.prime, 0, _MAX_PADIC_EXPONENT⟩
    else
      ⟨x.prime, (a.significand + b.significand).fdiv (x.prime ^ v), a.exponent + (v : ℤ)⟩
  else if a.exponent > b.exponent then
    ⟨x.prime, a.significand * x.prime ^ (a.exponent - b.exponent).toNat + b.significand,
      b.exponent⟩
  else
    ⟨x.prime, b.significand * x.prime ^ (b.exponent - a.exponent).toNat + a.significand,
      a.exponent⟩

/-- `PAdicFloat.__sub__`: `self + (-other)`. -/
def PAdicFloat.sub (x y : PAdicFloat) : PAdicFloat :=
  x.add y.neg

/-- `PAdicFloat.__eq__` on operands sharing a prime: normalize both, `False`
if either is NaN, else `(a - b).iszero()`. -/
def PAdicFloat.beq (x y : PAdicFloat) : Bool :=
  let a := x.normalize
  let b := y.normalize
  if a.isNaN || b.isNaN then false
  else (a.sub b).iszero

/-- `PAdicFloat.__truediv__` on operands sharing a prime; `none` when the
source would raise from `_invmod`. -/
def PAdicFloat.truediv (x y : PAdicFloat) : Option PAdicFloat :=
  let a := x.normalize
  let b := y.normalize
  if a.isNaN || b.isNaN then some (PAdicFloat.NaN x.prime)
  else if b.iszero then
    if a.iszero then some (PAdicFloat.NaN x.prime) else some (PAdicFloat.inf x.prime)
  else if b.isinf then
    if a.isinf then some (PAdicFloat.NaN x.prime) else some (PAdicFloat.ofInt 0 x.prime)
  else if a.exponent - b.exponent < _MIN_PADIC_EXPONENT then
    some ⟨x.prime, 1, _MIN_PADIC_EXPONENT - 1⟩
  else
    (_invmod b.significand x.prime _PADIC_PRECISION).map fun c =>
      ⟨x.prime, (a.significand * c) % x.prime ^ _PADIC_PRECISION, a.exponent - b.exponent⟩

/-- `PAdicFloat.__invert__`: `1 / self`, which routes through
`__rtruediv__`, i.e. `PAdicFloat(1, prime=self.prime) / self`. -/
def PAdicFloat.invert (x : PAdicFloat) : Option PAdicFloat :=
  (PAdicFloat.ofInt 1 x.prime).truediv x

/-- The Python source value handed to `PAdicFloat.__new__`: an int, a
`Fraction` (numerator/denominator, already reduced, positive denominator),
or a value of an unsupported type. -/
inductive PySource where
  | int (n : ℤ)
  | frac (num dem : ℤ)
  | unsupported
deriving DecidableEq

/-- `PAdicFloat.__new__(fromrational, **kwargs)` with the keyword arguments
`prime`, `significand`, `exponent` each optionally present. -/
def pAdicNew (fromrational : Option PySource) (prime significand exponent : Option ℤ) :
    Except PError PAdicFloat :=
  let p := prime.getD 2
  match significand with
  | some s =>
    if fromrational.isSome then Except.error PError.valueError
    else
      match exponent with
      | none => Except.error PError.valueError
      | some e => Except.ok ⟨p, s, e⟩
  | none =>
    match fromrational with
    | some (PySource.int n) => Except.ok (PAdicFloat.ofInt n p)
    | some (PySource.frac num dem) =>
      match PAdicFloat.ofFraction num dem p with
      | some r => Except.ok r
      | none => Except.error PError.invalidInverse
    | some PySource.unsupported => Except.error PError.typeError
    | none => Except.ok ⟨p, 0, _MAX_PADIC_EXPONENT⟩

/-- Running state of the `plog` summation loop: the Python locals
`log`, `summand`, `powersig`, `powerexp`. -/
structure PlogState where
  log : PAdicFloat
  summand : PAdicFloat
  powersig : PAdicFloat
  powerexp : ℤ
deriving DecidableEq

/-- One iteration `i` of `plog`'s `for i in range(2, target+1)` loop.  The
`Fraction(pow(-1, i-1), ifactor)` the source builds is already in lowest
terms with positive denominator (`gcd(1, ifactor) = 1`), so its numerator and
denominator are passed to the fraction constructor unchanged.  The scaling
factor's `t.prime ** (powerexp - iexp)` is a Python float when the exponent
is negative, which the constructor rejects with `TypeError`. -/
def plogStep (p texp : ℤ) (tclean : PAdicFloat) (s : PlogState) (i : ℕ) :
    Except PError PlogState := do
  let log := (s.log.add s.summand).normalize
  let powersig := s.powersig.mul tclean
  let powerexp := s.powerexp + texp
  let iexp := _valuationFromInt (i : ℤ) p
  let ifactor := (i : ℤ).fdiv (p ^ iexp)
  let factor ←
    match PAdicFloat.ofFraction ((-1) ^ (i - 1)) ifactor p with
    | some f => Except.ok f
    | none => Except.error PError.invalidInverse
  let scaling ←
    if powerexp - (iexp : ℤ) < 0 then Except.error PError.typeError
    else Except.ok (PAdicFloat.ofInt (p ^ (powerexp - (iexp : ℤ)).toNat) p)
  let summand := ((powersig.mul factor).mul scaling).normalize
  pure ⟨log, summand, powersig, powerexp⟩

/-- `plog(padicNumber)`.  `t = (padicNumber - 1).normalize()` (the `- 1`
coerces the integer through `__add__`); the source then computes
`tclean = t / (t.prime ** texp)` *before* the domain check, and for
`texp < 0` that `**` yields a Python float, so the division raises
`TypeError` rather than reaching the `ValueError` domain check; the
`ValueError` is reached only for `texp = 0`. -/
def plog (padicNumber : PAdicFloat) : Except PError PAdicFloat :=
  let p := padicNumber.prime
  let t := (padicNumber.add (PAdicFloat.ofInt (-1) p)).normalize
  let texp := t.exponent
  if texp < 0 then Except.error PError.typeError
  else
    match t.truediv (PAdicFloat.ofInt (p ^ texp.toNat) p) with
    | none => Except.error PError.invalidInverse
    | some tclean =>
      if texp < 1 then Except.error PError.domainError
      else
        let target := ((_MAX_PADIC_EXPONENT.fdiv texp).toNat) + 1
        (((List.range' 2 (target - 1)).foldlM (plogStep p texp tclean)
            ⟨PAdicFloat.ofInt 0 p, t, tclean, texp⟩).map PlogState.log)

/-! ### Valuation lemmas -/

@[simp] lemma MAX_exp_eq : _MAX_PADIC_EXPONENT = 64 := rfl

@[simp] lemma MIN_exp_eq : _MIN_PADIC_EXPONENT = -63 := by decide

@[simp] lemma PREC_eq : _PADIC_PRECISION = 65 := rfl

lemma natValuationAux_pow_mul (p : ℕ) (hp : 2 ≤ p) :
    ∀ (k fuel m : ℕ), ¬ p ∣ m → p ^ k * m ≤ fuel →
      natValuationAux p fuel (p ^ k * m) = k := by
  intro k
  induction k with
  | zero =>
    intro fuel m hm _
    have hmod : ¬ m % p = 0 := fun h => hm (Nat.dvd_iff_mod_eq_zero.2 h)
    cases fuel with
    | zero => rfl
    | succ f =>
      simp only [pow_zero, one_mul, natValuationAux]
      rw [if_neg]
      tauto
  | succ k ih =>
    intro fuel m hm hfuel
    have hm0 : m ≠ 0 := fun h => hm (h ▸ dvd_zero p)
    have hple : 1 ≤ p ^ k * m := Nat.one_le_iff_ne_zero.2 (by positivity)
    have hn : p ^ (k + 1) * m = p * (p ^ k * m) := by ring
    have hge : p ^ k * m + 1 ≤ fuel := by
      have : 2 * (p ^ k * m) ≤ p * (p ^ k * m) := Nat.mul_le_mul_right _ hp
      omega
    obtain ⟨f, rfl⟩ : ∃ f, fuel = f + 1 := ⟨fuel - 1, by omega⟩
    simp only [natValuationAux]
    rw [if_pos]
    · rw [hn, Nat.mul_div_cancel_left _ (by omega : 0 < p)]
      rw [ih f m hm (by omega)]
    · refine ⟨hp, ?_, by positivity⟩
      exact Nat.dvd_iff_mod_eq_zero.1 ⟨p ^ k * m, hn⟩

lemma natValuation_pow_mul (p k m : ℕ) (hp : 2 ≤ p) (hm : ¬ p ∣ m) :
    natValuation p (p ^ k * m) = k :=
  natValuationAux_pow_mul p hp k (p ^ k * m) m hm le_rfl

lemma nat_exists_decomp (p : ℕ) (hp : 2 ≤ p) :
    ∀ n : ℕ, n ≠ 0 → ∃ k m, n = p ^ k * m ∧ ¬ p ∣ m := by
  intro n
  induction n using Nat.strong_induction_on with
  | _ n ih =>
    intro hn
    by_cases hd : p ∣ n
    · obtain ⟨t, rfl⟩ := hd
      have ht0 : t ≠ 0 := by rintro rfl; simp at hn
      have htlt : t < p * t := by
        have h1 : 1 * t < p * t :=
          (Nat.mul_lt_mul_right (by omega : 0 < t)).2 (by omega)
        simpa using h1
      obtain ⟨k, m, hkm, hm⟩ := ih t htlt ht0
      exact ⟨k + 1, m, by rw [hkm]; ring, hm⟩
    · exact ⟨0, n, by ring, hd⟩

lemma int_not_dvd_one {p : ℤ} (hp : 2 ≤ p) : ¬ p ∣ (1 : ℤ) := fun h =>
  absurd (Int.le_of_dvd one_pos h) (by omega)

lemma int_coe_toNat {p : ℤ} (hp : 2 ≤ p) : ((p.toNat : ℤ)) = p :=
  Int.toNat_of_nonneg (by omega)

lemma natAbs_eq_toNat {p : ℤ} (hp : 2 ≤ p) : p.natAbs = p.toNat := by
  omega

lemma int_dvd_iff_toNat_dvd {p u : ℤ} (hp : 2 ≤ p) : p ∣ u ↔ p.toNat ∣ u.natAbs := by
  rw [← natAbs_eq_toNat hp, Int.natAbs_dvd_natAbs]

lemma int_val_unique (p u : ℤ) (k : ℕ) (hp : 2 ≤ p) (hu : ¬ p ∣ u) :
    _valuationFromInt (p ^ k * u) p = k := by
  have hu0 : u ≠ 0 := fun h => hu (h ▸ dvd_zero p)
  have hp0 : p ≠ 0 := by omega
  have hne : p ^ k * u ≠ 0 := mul_ne_zero (pow_ne_zero _ hp0) hu0
  rw [_valuationFromInt, if_neg hne]
  have habs : (p ^ k * u).natAbs = p.toNat ^ k * u.natAbs := by
    rw [Int.natAbs_mul, Int.natAbs_pow, natAbs_eq_toNat hp]
  rw [habs]
  exact natValuation_pow_mul _ _ _ (by omega) fun h => hu ((int_dvd_iff_toNat_dvd hp).2 h)

lemma int_val_of_not_dvd {p u : ℤ} (hp : 2 ≤ p) (hu : ¬ p ∣ u) :
    _valuationFromInt u p = 0 := by
  have := int_val_unique p u 0 hp hu
  simpa using this

lemma int_val_pow (p : ℤ) (k : ℕ) (hp : 2 ≤ p) : _valuationFromInt (p ^ k) p = k := by
  have := int_val_unique p 1 k hp (int_not_dvd_one hp)
  simpa using this

lemma int_val_decomp (p i : ℤ) (hp : 2 ≤ p) (hi : i ≠ 0) :
    ∃ u : ℤ, ¬ p ∣ u ∧ i = p ^ (_valuationFromInt i p) * u ∧
      i.fdiv (p ^ (_valuationFromInt i p)) = u := by
  have hp0 : p ≠ 0 := by omega
  have hn0 : i.natAbs ≠ 0 := fun h => hi (Int.natAbs_eq_zero.1 h)
  obtain ⟨k, m, hkm, hm⟩ := nat_exists_decomp p.toNat (by omega) i.natAbs hn0
  have hiu : i = p ^ k * (i.sign * m) := by
    conv_lhs => rw [← Int.sign_mul_natAbs i]
    rw [hkm]
    push_cast
    rw [int_coe_toNat hp]
    ring
  have hu : ¬ p ∣ (i.sign * m) := by
    intro h
    apply hm
    have := (int_dvd_iff_toNat_dvd hp).1 h
    rwa [Int.natAbs_mul, Int.natAbs_sign_of_nonzero hi, one_mul, Int.natAbs_ofNat] at this
  have hval : _valuationFromInt i p = k := by
    rw [hiu]
    exact int_val_unique p _ k hp hu
  refine ⟨i.sign * m, hu, by rw [hval]; exact hiu, ?_⟩
  rw [hval]
  conv_lhs => rw [hiu]
  exact Int.mul_fdiv_cancel_left _ (pow_ne_zero _ hp0)

/-! ### Modular-arithmetic and predicate helpers -/

lemma int_pow_pos {p : ℤ} (hp : 2 ≤ p) (k : ℕ) : (0:ℤ) < p ^ k := pow_pos (by omega) k

lemma emod_congr (x n : ℤ) : x % n ≡ x [ZMOD n] := Int.emod_emod_of_dvd x dvd_rfl

lemma dvd_emod_pow_iff {p x : ℤ} {k : ℕ} (hk : k ≠ 0) : p ∣ x % p ^ k ↔ p ∣ x := by
  have hmod : x % p ^ k = x - p ^ k * (x / p ^ k) := Int.emod_def x (p ^ k)
  constructor
  · intro h
    have hx : x = x % p ^ k + p ^ k * (x / p ^ k) := by rw [hmod]; ring
    rw [hx]
    exact dvd_add h (Dvd.dvd.mul_right (dvd_pow_self p hk) _)
  · intro h
    rw [hmod]
    exact dvd_sub h (Dvd.dvd.mul_right (dvd_pow_self p hk) _)

lemma isNaN_iff (x : PAdicFloat) : x.isNaN = true ↔ x.exponent = -64 ∧ x.significand = 0 := by
  simp [PAdicFloat.isNaN, _MIN_PADIC_EXPONENT, _MAX_PADIC_EXPONENT]

lemma isinf_iff (x : PAdicFloat) : x.isinf = true ↔ x.exponent = -64 ∧ x.significand = 1 := by
  simp [PAdicFloat.isinf, _MIN_PADIC_EXPONENT, _MAX_PADIC_EXPONENT]

lemma iszero_iff (x : PAdicFloat) : x.iszero = true ↔ x.exponent = 64 ∧ x.significand = 0 := by
  simp [PAdicFloat.iszero, _MAX_PADIC_EXPONENT]

lemma isNaN_false_iff (x : PAdicFloat) :
    x.isNaN = false ↔ ¬(x.exponent = -64 ∧ x.significand = 0) := by
  rw [Bool.eq_false_iff, Ne, ← isNaN_iff]

lemma isinf_false_iff (x : PAdicFloat) :
    x.isinf = false ↔ ¬(x.exponent = -64 ∧ x.significand = 1) := by
  rw [Bool.eq_false_iff, Ne, ← isinf_iff]

lemma iszero_false_iff (x : PAdicFloat) :
    x.iszero = false ↔ ¬(x.exponent = 64 ∧ x.significand = 0) := by
  rw [Bool.eq_false_iff, Ne, ← iszero_iff]

/-! ### Branch evaluation of `normalize` -/

lemma normalize_nan_case {p s e : ℤ} (h1 : e < -63) (h2 : s = 0) :
    (PAdicFloat.mk p s e).normalize = ⟨p, 0, -64⟩ := by
  unfold PAdicFloat.normalize
  rw [if_pos]
  · norm_num [_MIN_PADIC_EXPONENT, _MAX_PADIC_EXPONENT]
  · exact ⟨by simpa [_MIN_PADIC_EXPONENT, _MAX_PADIC_EXPONENT] using h1, h2⟩

lemma normalize_inf_case {p s e : ℤ} (h1 : e < -63) (h2 : s ≠ 0) :
    (PAdicFloat.mk p s e).normalize = ⟨p, 1, -64⟩ := by
  unfold PAdicFloat.normalize
  rw [if_neg, if_pos]
  · norm_num [_MIN_PADIC_EXPONENT, _MAX_PADIC_EXPONENT]
  · simpa [_MIN_PADIC_EXPONENT, _MAX_PADIC_EXPONENT] using h1
  · simp only [_MIN_PADIC_EXPONENT, _MAX_PADIC_EXPONENT]
    intro h
    exact h2 h.2

lemma normalize_big_case {p s e : ℤ} (h1 : 64 < e) :
    (PAdicFloat.mk p s e).normalize = ⟨p, 0, 64⟩ := by
  unfold PAdicFloat.normalize
  rw [if_neg, if_neg, if_pos]
  · norm_num [_MAX_PADIC_EXPONENT]
  · simpa [_MAX_PADIC_EXPONENT] using h1
  · simp only [_MIN_PADIC_EXPONENT, _MAX_PADIC_EXPONENT]
    omega
  · simp only [_MIN_PADIC_EXPONENT, _MAX_PADIC_EXPONENT]
    intro h
    omega

lemma normalize_zero_case {p s e : ℤ} (h1 : -63 ≤ e) (h2 : e ≤ 64) (h3 : s = 0) :
    (PAdicFloat.mk p s e).normalize = ⟨p, 0, 64⟩ := by
  unfold PAdicFloat.normalize
  rw [if_neg, if_neg, if_neg, if_pos]
  · norm_num [_MAX_PADIC_EXPONENT]
  · exact h3
  · simp only [_MAX_PADIC_EXPONENT]
    omega
  · simp only [_MIN_PADIC_EXPONENT, _MAX_PADIC_EXPONENT]
    omega
  · simp only [_MIN_PADIC_EXPONENT, _MAX_PADIC_EXPONENT]
    intro h
    omega

lemma normalize_gen_case {p s e : ℤ} (h1 : -63 ≤ e) (h2 : e ≤ 64) (h3 : s ≠ 0) :
    (PAdicFloat.mk p s e).normalize =
      ⟨p, (s.fdiv (p ^ _valuationFromInt s p)) % p ^ 65,
        e + (_valuationFromInt s p : ℤ)⟩ := by
  unfold PAdicFloat.normalize
  rw [if_neg, if_neg, if_neg, if_neg]
  · norm_num [_PADIC_PRECISION]
  · exact h3
  · simp only [_MAX_PADIC_EXPONENT]
    omega
  · simp only [_MIN_PADIC_EXPONENT, _MAX_PADIC_EXPONENT]
    omega
  · simp only [_MIN_PADIC_EXPONENT, _MAX_PADIC_EXPONENT]
    intro h
    omega

/-- A canonical triple (exponent in range, significand a unit in
`[0, p^65)`) is a fixed point of `normalize`. -/
lemma normalize_fix {p s e : ℤ} (hp : 2 ≤ p) (he1 : -63 ≤ e) (he2 : e ≤ 64)
    (hs0 : 0 ≤ s) (hs1 : s < p ^ 65) (hsd : ¬ p ∣ s) :
    (PAdicFloat.mk p s e).normalize = ⟨p, s, e⟩ := by
  have hs : s ≠ 0 := fun h => hsd (h ▸ dvd_zero p)
  rw [normalize_gen_case he1 he2 hs, int_val_of_not_dvd hp hsd]
  simp only [pow_zero, Int.fdiv_one, Nat.cast_zero, add_zero]
  rw [Int.emod_eq_of_lt hs0 hs1]

lemma normalize_NaN (p : ℤ) : (PAdicFloat.NaN p).normalize = PAdicFloat.NaN p := by
  have : PAdicFloat.NaN p = PAdicFloat.mk p 0 (-64) := by
    norm_num [PAdicFloat.NaN, _MIN_PADIC_EXPONENT, _MAX_PADIC_EXPONENT]
  rw [this, normalize_nan_case (by omega) rfl]

lemma normalize_inf (p : ℤ) : (PAdicFloat.inf p).normalize = PAdicFloat.inf p := by
  have : PAdicFloat.inf p = PAdicFloat.mk p 1 (-64) := by
    norm_num [PAdicFloat.inf, _MIN_PADIC_EXPONENT, _MAX_PADIC_EXPONENT]
  rw [this, normalize_inf_case (by omega) one_ne_zero]

lemma normalize_zero_sentinel (p : ℤ) :
    (PAdicFloat.mk p 0 64).normalize = PAdicFloat.mk p 0 64 :=
  normalize_zero_case (by omega) (by omega) rfl

/-- The significand produced by the generic branch of `normalize` is a unit
in `[0, p^65)`, in particular nonzero. -/
lemma canonical_sig {p s : ℤ} (hp : 2 ≤ p) (hs : s ≠ 0) :
    0 ≤ (s.fdiv (p ^ _valuationFromInt s p)) % p ^ 65 ∧
      (s.fdiv (p ^ _valuationFromInt s p)) % p ^ 65 < p ^ 65 ∧
      ¬ p ∣ (s.fdiv (p ^ _valuationFromInt s p)) % p ^ 65 := by
  obtain ⟨u, hu, hdecomp, hfd⟩ := int_val_decomp p s hp hs
  have h65 : (0:ℤ) < p ^ 65 := int_pow_pos hp 65
  refine ⟨Int.emod_nonneg _ (by omega), Int.emod_lt_of_pos _ h65, ?_⟩
  rw [hfd]
  intro hd
  exact hu ((dvd_emod_pow_iff (by omega)).1 hd)

/-! ### Claim C2: idempotence of `normalize` -/

/-- C2, counterexample to the claim as stated: for the non-canonical numeral
with prime 2, significand 2, exponent 64 (`= _MAX_PADIC_EXPONENT`), the first
`normalize` produces exponent 65 (out of range), and the second collapses it
to the Zero sentinel, so `normalize(normalize(x)) ≠ normalize(x)`. -/
theorem C2_counterexample :
    ¬ ((PAdicFloat.mk 2 2 64).normalize.normalize = (PAdicFloat.mk 2 2 64).normalize) := by
  decide

/-- C2 (amended): for prime at least 2, `normalize(normalize(x)) = normalize(x)`
for every numeral `x` whose normalized exponent does not exceed
`_MAX_PADIC_EXPONENT`; when the valuation of the significand pushes the
normalized exponent beyond `_MAX_PADIC_EXPONENT`, the outer `normalize`
instead collapses the result to the Zero sentinel. -/
theorem C2_normalize_idempotent_on_bounded (x : PAdicFloat) (hp : 2 ≤ x.prime)
    (h : x.normalize.exponent ≤ 64) :
    x.normalize.normalize = x.normalize := by
  obtain ⟨p, s, e⟩ := x
  simp only at hp h ⊢
  by_cases h1 : e < -63
  · by_cases h2 : s = 0
    · rw [normalize_nan_case h1 h2, normalize_nan_case (by omega) rfl]
    · rw [normalize_inf_case h1 h2, normalize_inf_case (by omega) one_ne_zero]
  · by_cases h3 : 64 < e
    · rw [normalize_big_case h3, normalize_zero_case (by omega) (by omega) rfl]
    · by_cases h2 : s = 0
      · rw [normalize_zero_case (by omega) (by omega) h2,
          normalize_zero_case (by omega) (by omega) rfl]
      · rw [normalize_gen_case (by omega) (by omega) h2]
        rw [normalize_gen_case (by omega) (by omega) h2] at h
        simp only at h
        obtain ⟨hge0, hlt, hnd⟩ := canonical_sig hp h2
        exact normalize_fix hp (by omega) (by omega) hge0 hlt hnd

/-- C2 witness: the amended idempotence theorem applied at the concrete
non-canonical numeral with prime 2, significand 3, exponent 5. -/
theorem C2_witness :
    2 ≤ (PAdicFloat.mk 2 3 5).prime ∧ (PAdicFloat.mk 2 3 5).normalize.exponent ≤ 64 ∧
      (PAdicFloat.mk 2 3 5).normalize.normalize = (PAdicFloat.mk 2 3 5).normalize :=
  ⟨by decide, by decide, C2_normalize_idempotent_on_bounded _ (by decide) (by decide)⟩

/-! ### Claim C7: NaN is never equal to anything -/

/-- C7: equality returns `false` whenever either normalized operand is the
NaN sentinel; in particular `nan(p) == nan(p)` is `false`, and `nan(p) == y`
and `y == nan(p)` are `false` for every numeral `y` with the same prime. -/
theorem C7_nan_never_equal (x y : PAdicFloat) (hpr : x.prime = y.prime)
    (h : x.normalize.isNaN = true ∨ y.normalize.isNaN = true) :
    x.beq y = false := by
  unfold PAdicFloat.beq
  rcases h with h | h <;> simp [h]

/-- C7 witness: `NaN(2) == NaN(2)` evaluates to `false` by the theorem. -/
theorem C7_witness : (PAdicFloat.NaN 2).beq (PAdicFloat.NaN 2) = false :=
  C7_nan_never_equal _ _ rfl (Or.inl (by decide))

/-! ### Claim C10: constructor defaults -/

lemma ofInt_prime (n p : ℤ) : (PAdicFloat.ofInt n p).prime = p := rfl

lemma ofFraction_prime {num dem p : ℤ} {r : PAdicFloat}
    (h : PAdicFloat.ofFraction num dem p = some r) : r.prime = p := by
  simp only [PAdicFloat.ofFraction] at h
  split at h <;>
    · obtain ⟨c, -, hc⟩ := Option.map_eq_some'.1 h
      rw [← hc]

/-- C10: constructing a `PAdicFloat` without a `prime` keyword defaults the
prime to 2 (whatever the other arguments), and constructing with neither a
source value nor `significand`/`exponent` keywords succeeds and returns the
Zero sentinel (significand 0, exponent `_MAX_PADIC_EXPONENT`). -/
theorem C10_constructor_defaults :
    (∀ (fr : Option PySource) (sig ex : Option ℤ) (r : PAdicFloat),
        pAdicNew fr none sig ex = Except.ok r → r.prime = 2) ∧
      pAdicNew none none none none = Except.ok ⟨2, 0, _MAX_PADIC_EXPONENT⟩ := by
  constructor
  · intro fr sig ex r h
    cases sig with
    | some s =>
      cases fr with
      | some src => simp [pAdicNew] at h
      | none =>
        cases ex with
        | none => simp [pAdicNew] at h
        | some e =>
          simp only [pAdicNew, Option.getD, Option.isSome, Bool.false_eq_true, if_false,
            Except.ok.injEq] at h
          rw [← h]
    | none =>
      cases fr with
      | none =>
        simp only [pAdicNew, Option.getD, Except.ok.injEq] at h
        rw [← h]
      | some src =>
        cases src with
        | int n =>
          simp only [pAdicNew, Option.getD, Except.ok.injEq] at h
          rw [← h]
          exact ofInt_prime n 2
        | frac num dem =>
          simp only [pAdicNew, Option.getD] at h
          split at h
          · rename_i r' hr'
            simp only [Except.ok.injEq] at h
            rw [← h]
            exact ofFraction_prime hr'
          · simp at h
        | unsupported => simp [pAdicNew] at h
  · rfl

/-- C10 witness: the theorem instantiated at the integer-source construction
`PAdicFloat(5)` (no prime keyword), together with the default construction. -/
theorem C10_witness :
    (PAdicFloat.ofInt 5 2).prime = 2 ∧
      pAdicNew none none none none = Except.ok ⟨2, 0, _MAX_PADIC_EXPONENT⟩ :=
  ⟨C10_constructor_defaults.1 (some (PySource.int 5)) none none _ rfl,
    C10_constructor_defaults.2⟩

/-! ### Claim C4: equality as field agreement -/

/-- C4, evaluation at the failing input: the claim (with the source's own
specification) requires equality to be reflexive on non-NaN numerals, but for
the canonical numeral with prime 2, significand 1, exponent `-1` (the value
`1/2`), `x == x` evaluates to `false`: `x - x` produces the non-zero numeral
`(significand 1, exponent 64)` because the cancellation test
`v > _MAX_PADIC_EXPONENT - a.exponent` misses `v = 65` when the exponent is
negative, so `(x - x).iszero()` fails. -/
theorem C4_eq_not_reflexive_eval :
    (PAdicFloat.mk 2 1 (-1)).beq (PAdicFloat.mk 2 1 (-1)) = false := by
  decide

/-! ### Claim C9: domain error of `plog` -/

/-- C9, evaluation at the failing input: for the numeral `1/2` (prime 2,
significand 1, exponent `-1`), the valuation of `x - 1` is `-1 < 1`, i.e. the
argument is outside `1 + prime·Z_p`, so per the claim `plog` must fail with
the domain error; the code instead computes `t / (t.prime ** texp)` before
its domain check, `2 ** -1` is a Python float, and the call fails with
`TypeError` — not the `DomainError` the claim (and the code's own error
message) prescribe. -/
theorem C9_plog_wrong_error_eval :
    (((PAdicFloat.mk 2 1 (-1)).add (PAdicFloat.ofInt (-1) 2)).normalize.exponent < 1) ∧
      plog (PAdicFloat.mk 2 1 (-1)) = Except.error PError.typeError := by
  constructor
  · decide
  · decide

/-! ### Claim C5: addition with unequal exponents -/

/-- C5: for finite operands (normalizations neither NaN nor Infinity) sharing
a prime whose normalized exponents differ, `__add__` returns the smaller of
the two normalized exponents, and as significand the smaller-exponent
operand's significand plus the larger-exponent operand's significand scaled
by `prime` to the exponent gap. -/
theorem C5_add_unequal_exponents (x y : PAdicFloat) (hpr : x.prime = y.prime)
    (hna : x.normalize.isNaN = false) (hnb : y.normalize.isNaN = false)
    (hia : x.normalize.isinf = false) (hib : y.normalize.isinf = false)
    (hne : x.normalize.exponent ≠ y.normalize.exponent) :
    (x.add y).exponent = min x.normalize.exponent y.normalize.exponent ∧
      (x.add y).significand =
        (if x.normalize.exponent < y.normalize.exponent
         then x.normalize.significand + y.normalize.significand *
           x.prime ^ (y.normalize.exponent - x.normalize.exponent).toNat
         else y.normalize.significand + x.normalize.significand *
           x.prime ^ (x.normalize.exponent - y.normalize.exponent).toNat) := by
  unfold PAdicFloat.add
  simp only [hna, hnb, hia, hib, Bool.or_self, Bool.false_eq_true, if_false, if_neg hne]
  by_cases hgt : y.normalize.exponent < x.normalize.exponent
  · rw [if_pos hgt]
    dsimp only
    constructor
    · rw [min_eq_right hgt.le]
    · rw [if_neg (by omega)]
      ring
  · rw [if_neg hgt]
    dsimp only
    constructor
    · rw [min_eq_left (by omega)]
    · rw [if_pos (by omega)]
      ring

/-- C5 witness: adding the canonical numerals `1 = (sig 1, exp 0)` and
`2 = (sig 1, exp 1)` over prime 2 yields exponent 0 and significand
`1 + 1·2 = 3`, per the theorem. -/
theorem C5_witness :
    ((PAdicFloat.mk 2 1 0).add (PAdicFloat.mk 2 1 1)).exponent =
        min (PAdicFloat.mk 2 1 0).normalize.exponent
          (PAdicFloat.mk 2 1 1).normalize.exponent ∧
      ((PAdicFloat.mk 2 1 0).add (PAdicFloat.mk 2 1 1)).significand =
        (if (PAdicFloat.mk 2 1 0).normalize.exponent <
            (PAdicFloat.mk 2 1 1).normalize.exponent
         then (PAdicFloat.mk 2 1 0).normalize.significand +
           (PAdicFloat.mk 2 1 1).normalize.significand *
             (PAdicFloat.mk 2 1 0).prime ^
               ((PAdicFloat.mk 2 1 1).normalize.exponent -
                 (PAdicFloat.mk 2 1 0).normalize.exponent).toNat
         else (PAdicFloat.mk 2 1 1).normalize.significand +
           (PAdicFloat.mk 2 1 0).normalize.significand *
             (PAdicFloat.mk 2 1 0).prime ^
               ((PAdicFloat.mk 2 1 0).normalize.exponent -
                 (PAdicFloat.mk 2 1 1).normalize.exponent).toNat) :=
  C5_add_unequal_exponents (PAdicFloat.mk 2 1 0) (PAdicFloat.mk 2 1 1)
    rfl (by decide) (by decide) (by decide) (by decide) (by decide)

/-! ### Claim C6: overflow and underflow clamp to sentinels -/

/-- C6: exponent overflow and underflow in arithmetic return sentinel
numerals rather than failing: for finite normalized operands sharing a prime,
`__mul__` returns the Zero sentinel when the sum of the normalized exponents
exceeds `_MAX_PADIC_EXPONENT`, and (with the divisor's significand a unit mod
the prime) `__truediv__` succeeds with the Infinity sentinel when the
difference of the normalized exponents falls below `_MIN_PADIC_EXPONENT`. -/
theorem C6_overflow_clamps (x y : PAdicFloat) (hpr : x.prime = y.prime)
    (hna : x.normalize.isNaN = false) (hnb : y.normalize.isNaN = false)
    (hia : x.normalize.isinf = false) (hib : y.normalize.isinf = false) :
    (_MAX_PADIC_EXPONENT < x.normalize.exponent + y.normalize.exponent →
        x.mul y = ⟨x.prime, 0, _MAX_PADIC_EXPONENT⟩) ∧
      (¬ x.prime ∣ y.normalize.significand →
        x.normalize.exponent - y.normalize.exponent < _MIN_PADIC_EXPONENT →
        x.truediv y = some (PAdicFloat.inf x.prime)) := by
  constructor
  · intro hov
    unfold PAdicFloat.mul
    simp only [hna, hnb, hia, hib, Bool.or_self, Bool.false_eq_true, if_false,
      if_pos (by exact gt_iff_lt.2 hov)]
  · intro hu hun
    have hz : y.normalize.iszero = false := by
      rw [iszero_false_iff]
      intro hcon
      exact hu (hcon.2 ▸ dvd_zero x.prime)
    unfold PAdicFloat.truediv
    simp only [hna, hnb, hia, hib, hz, Bool.or_self, Bool.false_eq_true, if_false,
      if_pos hun]
    rw [PAdicFloat.inf]

/-- C6 witness: `p^64 · p = p^65` clamps to Zero, and `p^(-63) / p` clamps to
Infinity, both over prime 2, per the theorem. -/
theorem C6_witness :
    (PAdicFloat.mk 2 1 64).mul (PAdicFloat.mk 2 1 1) = ⟨2, 0, _MAX_PADIC_EXPONENT⟩ ∧
      (PAdicFloat.mk 2 1 (-63)).truediv (PAdicFloat.mk 2 1 1) =
        some (PAdicFloat.inf 2) :=
  ⟨(C6_overflow_clamps (PAdicFloat.mk 2 1 64) (PAdicFloat.mk 2 1 1) rfl
      (by decide) (by decide) (by decide) (by decide)).1 (by decide),
    (C6_overflow_clamps (PAdicFloat.mk 2 1 (-63)) (PAdicFloat.mk 2 1 1) rfl
      (by decide) (by decide) (by decide) (by decide)).2 (by decide) (by decide)⟩

/-! ### Claim C1: the divide sentinel table -/

lemma iszero_then_not_isNaN (a : PAdicFloat) (h : a.iszero = true) : a.isNaN = false := by
  rw [iszero_iff] at h
  rw [isNaN_false_iff]
  omega

lemma isinf_then_not_isNaN (a : PAdicFloat) (h : a.isinf = true) : a.isNaN = false := by
  rw [isinf_iff] at h
  rw [isNaN_false_iff]
  omega

lemma isinf_then_not_iszero (a : PAdicFloat) (h : a.isinf = true) : a.iszero = false := by
  rw [isinf_iff] at h
  rw [iszero_false_iff]
  omega

lemma isinf_then_not_iszero' (a : PAdicFloat) (h : a.isinf = true) :
    ¬ a.iszero = true := by
  rw [isinf_then_not_iszero a h]
  simp

/-- C1, counterexample to the claim as stated: dividing Infinity by the
finite numeral `1/2` (prime 2, significand 1, exponent `-1`) does not give
Infinity: the quotient's exponent `-64 - (-1) = -63` does not fall below
`_MIN_PADIC_EXPONENT`, so the clamp never fires and the result is the finite
numeral `(significand 1, exponent -63)`. -/
theorem C1_counterexample :
    (PAdicFloat.mk 2 1 (-1)).normalize.isNaN = false ∧
      (PAdicFloat.mk 2 1 (-1)).normalize.isinf = false ∧
      (PAdicFloat.inf 2).normalize.isinf = true ∧
      (PAdicFloat.inf 2).truediv (PAdicFloat.mk 2 1 (-1)) ≠
        some (PAdicFloat.inf 2) := by
  refine ⟨by decide, by decide, by decide, by decide⟩

/-- C1 (amended): the sentinel table of `__truediv__` after normalizing both
operands: NaN propagates; `0/0` is NaN; finite nonzero over zero is
Infinity; Infinity over a non-NaN non-infinite operand of *nonnegative*
normalized exponent is Infinity (for a divisor of negative normalized
exponent the underflow clamp does not fire and the quotient stays finite);
Infinity over Infinity is NaN; finite over Infinity is the Zero sentinel
`PAdicFloat(0, prime)`. -/
theorem C1_divide_sentinel_table (x y : PAdicFloat) (hpr : x.prime = y.prime) :
    (x.normalize.isNaN = true ∨ y.normalize.isNaN = true →
        x.truediv y = some (PAdicFloat.NaN x.prime)) ∧
      (x.normalize.iszero = true ∧ y.normalize.iszero = true →
        x.truediv y = some (PAdicFloat.NaN x.prime)) ∧
      (x.normalize.isNaN = false → x.normalize.isinf = false →
        x.normalize.iszero = false → y.normalize.iszero = true →
        x.truediv y = some (PAdicFloat.inf x.prime)) ∧
      (x.normalize.isinf = true → y.normalize.isNaN = false →
        y.normalize.isinf = false → 0 ≤ y.normalize.exponent →
        x.truediv y = some (PAdicFloat.inf x.prime)) ∧
      (x.normalize.isinf = true ∧ y.normalize.isinf = true →
        x.truediv y = some (PAdicFloat.NaN x.prime)) ∧
      (x.normalize.isNaN = false → x.normalize.isinf = false →
        y.normalize.isinf = true →
        x.truediv y = some (PAdicFloat.ofInt 0 x.prime)) := by
  refine ⟨?_, ?_, ?_, ?_, ?_, ?_⟩
  · intro h
    unfold PAdicFloat.truediv
    rcases h with h | h <;> simp [h]
  · rintro ⟨hza, hzb⟩
    have hna := iszero_then_not_isNaN _ hza
    have hnb := iszero_then_not_isNaN _ hzb
    unfold PAdicFloat.truediv
    simp [hna, hnb, hza, hzb]
  · intro hna hia hza hzb
    have hnb := iszero_then_not_isNaN _ hzb
    unfold PAdicFloat.truediv
    simp [hna, hnb, hza, hzb]
  · intro hia hnb hib hexp
    have hna := isinf_then_not_isNaN _ hia
    have hza := isinf_then_not_iszero _ hia
    have hae : x.normalize.exponent = -64 := ((isinf_iff _).1 hia).1
    unfold PAdicFloat.truediv
    by_cases hzb : y.normalize.iszero = true
    · simp [hna, hnb, hzb, hza]
    · have hzb' : y.normalize.iszero = false := by
        revert hzb
        cases y.normalize.iszero <;> simp
      have hcond : x.normalize.exponent - y.normalize.exponent < _MIN_PADIC_EXPONENT := by
        rw [hae, MIN_exp_eq]
        omega
      simp only [hna, hnb, hzb', hib, Bool.or_self, Bool.false_eq_true, if_false,
        if_pos hcond]
      rw [PAdicFloat.inf]
  · rintro ⟨hia, hib⟩
    have hna := isinf_then_not_isNaN _ hia
    have hnb := isinf_then_not_isNaN _ hib
    have hzb := isinf_then_not_iszero _ hib
    unfold PAdicFloat.truediv
    simp [hna, hnb, hzb, hib, hia]
  · intro hna hia hib
    have hnb := isinf_then_not_isNaN _ hib
    have hzb := isinf_then_not_iszero _ hib
    unfold PAdicFloat.truediv
    simp [hna, hnb, hzb, hib, hia]

/-- C1 witness: the amended sentinel table instantiated at `NaN(2) / NaN(2)`,
`0/0`, `1/0`, `∞/1`, `∞/∞` and `1/∞` over prime 2. -/
theorem C1_witness :
    (PAdicFloat.NaN 2).truediv (PAdicFloat.NaN 2) = some (PAdicFloat.NaN 2) ∧
      (PAdicFloat.ofInt 0 2).truediv (PAdicFloat.ofInt 0 2) = some (PAdicFloat.NaN 2) ∧
      (PAdicFloat.ofInt 1 2).truediv (PAdicFloat.ofInt 0 2) = some (PAdicFloat.inf 2) ∧
      (PAdicFloat.inf 2).truediv (PAdicFloat.ofInt 1 2) = some (PAdicFloat.inf 2) ∧
      (PAdicFloat.inf 2).truediv (PAdicFloat.inf 2) = some (PAdicFloat.NaN 2) ∧
      (PAdicFloat.ofInt 1 2).truediv (PAdicFloat.inf 2) = some (PAdicFloat.ofInt 0 2) :=
  ⟨(C1_divide_sentinel_table (PAdicFloat.NaN 2) (PAdicFloat.NaN 2) rfl).1
      (Or.inl (by decide)),
    (C1_divide_sentinel_table (PAdicFloat.ofInt 0 2) (PAdicFloat.ofInt 0 2) rfl).2.1
      ⟨by decide, by decide⟩,
    (C1_divide_sentinel_table (PAdicFloat.ofInt 1 2) (PAdicFloat.ofInt 0 2) rfl).2.2.1
      (by decide) (by decide) (by decide) (by decide),
    (C1_divide_sentinel_table (PAdicFloat.inf 2) (PAdicFloat.ofInt 1 2) rfl).2.2.2.1
      (by decide) (by decide) (by decide) (by decide),
    (C1_divide_sentinel_table (PAdicFloat.inf 2) (PAdicFloat.inf 2) rfl).2.2.2.2.1
      ⟨by decide, by decide⟩,
    (C1_divide_sentinel_table (PAdicFloat.ofInt 1 2) (PAdicFloat.inf 2) rfl).2.2.2.2.2
      (by decide) (by decide) (by decide)⟩

/-! ### Claim C3: the modular-inverse engine -/

lemma xgcdF_spec : ∀ (fuel a b : ℕ), a ≤ fuel →
    (xgcdF fuel a b).1 = Nat.gcd a b ∧
      (a : ℤ) * (xgcdF fuel a b).2.1 + (b : ℤ) * (xgcdF fuel a b).2.2 =
        ((xgcdF fuel a b).1 : ℤ) := by
  intro fuel
  induction fuel with
  | zero =>
    intro a b ha
    obtain rfl : a = 0 := Nat.le_zero.1 ha
    simp [xgcdF]
  | succ f ih =>
    intro a b ha
    cases a with
    | zero => simp [xgcdF]
    | succ a0 =>
      have hr : b % (a0 + 1) ≤ f := by
        have := Nat.mod_lt b (show 0 < a0 + 1 by omega)
        omega
      obtain ⟨hg, hbez⟩ := ih (b % (a0 + 1)) (a0 + 1) hr
      constructor
      · show (xgcdF f (b % (a0+1)) (a0+1)).1 = _
        rw [hg, ← Nat.gcd_rec]
      · show ((a0+1 : ℕ) : ℤ) * ((xgcdF f (b % (a0+1)) (a0+1)).2.2 -
            ((b / (a0+1) : ℕ) : ℤ) * (xgcdF f (b % (a0+1)) (a0+1)).2.1) +
            (b : ℤ) * (xgcdF f (b % (a0+1)) (a0+1)).2.1 =
            ((xgcdF f (b % (a0+1)) (a0+1)).1 : ℤ)
        have hb : (b : ℤ) = ((a0+1 : ℕ) : ℤ) * ((b / (a0+1) : ℕ) : ℤ) +
            ((b % (a0+1) : ℕ) : ℤ) := by
          exact_mod_cast (Nat.div_add_mod b (a0+1)).symm
        rw [hb]
        linear_combination hbez

lemma pyPowInv_spec {a p : ℤ} (hp : 2 ≤ p)
    (hg : Nat.gcd ((a % p).toNat) p.toNat = 1) :
    ∃ c, pyPowInv a p = some c ∧ 0 ≤ c ∧ c < p ∧ a * c ≡ 1 [ZMOD p] := by
  have hp0 : (0:ℤ) < p := by omega
  obtain ⟨hgcd, hbez⟩ := xgcdF_spec ((a % p).toNat) ((a % p).toNat) p.toNat le_rfl
  have hsome : pyPowInv a p = some ((xgcdF ((a % p).toNat) ((a % p).toNat) p.toNat).2.1 % p) := by
    unfold pyPowInv
    rw [if_neg (by omega), if_pos (by rw [hgcd]; exact hg)]
  refine ⟨_, hsome, Int.emod_nonneg _ (by omega), Int.emod_lt_of_pos _ hp0, ?_⟩
  have h1 : ((a % p).toNat : ℤ) = a % p := Int.toNat_of_nonneg (Int.emod_nonneg a (by omega))
  have hptn : ((p.toNat : ℤ)) = p := int_coe_toNat hp
  have hbez' : (a % p) * (xgcdF ((a % p).toNat) ((a % p).toNat) p.toNat).2.1 +
      p * (xgcdF ((a % p).toNat) ((a % p).toNat) p.toNat).2.2 = 1 := by
    have := hbez
    rw [h1, hptn, hgcd, hg] at this
    exact_mod_cast this
  have c1 : a * ((xgcdF ((a % p).toNat) ((a % p).toNat) p.toNat).2.1 % p) ≡
      a * (xgcdF ((a % p).toNat) ((a % p).toNat) p.toNat).2.1 [ZMOD p] :=
    (emod_congr _ _).mul_left a
  have c2 : a * (xgcdF ((a % p).toNat) ((a % p).toNat) p.toNat).2.1 ≡
      (a % p) * (xgcdF ((a % p).toNat) ((a % p).toNat) p.toNat).2.1 [ZMOD p] :=
    ((emod_congr a p).symm).mul_right _
  have c3 : (a % p) * (xgcdF ((a % p).toNat) ((a % p).toNat) p.toNat).2.1 ≡ 1 [ZMOD p] := by
    rw [Int.modEq_iff_dvd]
    exact ⟨(xgcdF ((a % p).toNat) ((a % p).toNat) p.toNat).2.2, by linarith⟩
  exact c1.trans (c2.trans c3)

/-- The Hensel-lift step of `_invmod`: one loop iteration, anchored to the
base inverse `c` of `a` modulo `p`, extends validity of the inverse from
modulo `p^(i-1)` to modulo `p^i`. -/
lemma hensel_lift (p : ℤ) {a c b : ℤ} {i : ℕ} (hi : 1 ≤ i)
    (hc : a * c ≡ 1 [ZMOD p]) (hb : a * b ≡ 1 [ZMOD p ^ (i - 1)]) :
    a * ((b - (a * b - 1) * c) % p ^ i) ≡ 1 [ZMOD p ^ i] := by
  have h1 : a * ((b - (a * b - 1) * c) % p ^ i) ≡
      a * (b - (a * b - 1) * c) [ZMOD p ^ i] := (emod_congr _ _).mul_left a
  refine h1.trans ?_
  rw [Int.modEq_iff_dvd]
  have hd1 : (p ^ (i - 1) : ℤ) ∣ 1 - a * b := Int.modEq_iff_dvd.1 hb
  have hd2 : p ∣ 1 - a * c := Int.modEq_iff_dvd.1 hc
  have key : 1 - a * (b - (a * b - 1) * c) = (1 - a * b) * (1 - a * c) := by ring
  rw [key]
  have hmul : (p ^ (i - 1) * p : ℤ) ∣ (1 - a * b) * (1 - a * c) := mul_dvd_mul hd1 hd2
  rwa [← pow_succ, Nat.sub_add_cancel hi] at hmul

lemma henselIter_spec {a c p : ℤ} (hp : 2 ≤ p) (hc0 : 0 ≤ c) (hc1 : c < p)
    (hc : a * c ≡ 1 [ZMOD p]) :
    ∀ k, 1 ≤ k → 0 ≤ henselIter a c p k ∧ henselIter a c p k < p ^ k ∧
      a * henselIter a c p k ≡ 1 [ZMOD p ^ k] := by
  intro k
  induction k with
  | zero => omega
  | succ k ih =>
    intro _
    cases k with
    | zero =>
      refine ⟨hc0, by simpa using hc1, by simpa using hc⟩
    | succ k0 =>
      obtain ⟨h0, h1, hmod⟩ := ih (by omega)
      show 0 ≤ (henselIter a c p (k0+1) - (a * henselIter a c p (k0+1) - 1) * c) % p ^ (k0+2) ∧ _
      refine ⟨Int.emod_nonneg _ (by positivity), Int.emod_lt_of_pos _ (int_pow_pos hp _), ?_⟩
      have hb : a * henselIter a c p (k0+1) ≡ 1 [ZMOD p ^ ((k0 + 2) - 1)] := by
        simpa using hmod
      exact hensel_lift p (by omega) hc hb

lemma _invmod_spec {a p : ℤ} (hp : 2 ≤ p)
    (hg : Nat.gcd ((a % p).toNat) p.toNat = 1) {k : ℕ} (hk : 1 ≤ k) :
    ∃ b, _invmod a p k = some b ∧ 0 ≤ b ∧ b < p ^ k ∧ a * b ≡ 1 [ZMOD p ^ k] := by
  obtain ⟨c, hcsome, hc0, hc1, hc⟩ := pyPowInv_spec hp hg
  obtain ⟨h0, h1, hm⟩ := henselIter_spec hp hc0 hc1 hc k hk
  exact ⟨henselIter a c p k, by rw [_invmod, hcsome]; rfl, h0, h1, hm⟩

lemma prime_gcd_one {p a : ℤ} (hp : Prime p) (hp2 : 2 ≤ p) (ha : ¬ p ∣ a) :
    Nat.gcd ((a % p).toNat) p.toNat = 1 := by
  have hq : Nat.Prime p.toNat := by
    have := Int.prime_iff_natAbs_prime.1 hp
    rwa [natAbs_eq_toNat hp2] at this
  have hdvd : ¬ p.toNat ∣ (a % p).toNat := by
    intro h
    apply ha
    have h1 : ((a % p).toNat : ℤ) = a % p := Int.toNat_of_nonneg (Int.emod_nonneg a (by omega))
    have h2 : p ∣ a % p := by
      have h3 := Int.natCast_dvd_natCast.2 h
      rwa [int_coe_toNat hp2, h1] at h3
    have h3 : a = a % p + p * (a / p) := by rw [Int.emod_def]; ring
    rw [h3]
    exact dvd_add h2 (dvd_mul_right p _)
  rw [Nat.gcd_comm]
  exact (Nat.Prime.coprime_iff_not_dvd hq).2 hdvd

/-- C3: for a prime `p ≥ 2`, an integer `a` not divisible by `p`, and
`k ≥ 1`, `_invmod(a, p, k)` succeeds and returns `b` with `0 ≤ b < p^k` and
`a·b ≡ 1 (mod p^k)`; moreover each Hensel-lift iteration
`b ← (b - (a·b - 1)·c) mod p^i`, anchored to a base inverse `c` of `a`
modulo `p`, extends validity of the inverse from modulo `p^(i-1)` to
modulo `p^i`. -/
theorem C3_invmod_correct (p a : ℤ) (k : ℕ) (hp : Prime p) (hp2 : 2 ≤ p)
    (ha : ¬ p ∣ a) (hk : 1 ≤ k) :
    (∃ b, _invmod a p k = some b ∧ 0 ≤ b ∧ b < p ^ k ∧ a * b ≡ 1 [ZMOD p ^ k]) ∧
      (∀ c b : ℤ, ∀ i : ℕ, 1 ≤ i → a * c ≡ 1 [ZMOD p] →
        a * b ≡ 1 [ZMOD p ^ (i - 1)] →
        a * ((b - (a * b - 1) * c) % p ^ i) ≡ 1 [ZMOD p ^ i]) :=
  ⟨_invmod_spec hp2 (prime_gcd_one hp hp2 ha) hk,
    fun _ _ _ hi hc hb => hensel_lift p hi hc hb⟩

/-- C3 witness: the theorem instantiated at `p = 3`, `a = 2`, `k = 2`
(where `_invmod(2, 3, 2) = 5` and `2·5 ≡ 1 (mod 9)`). -/
theorem C3_witness :
    (∃ b, _invmod 2 3 2 = some b ∧ 0 ≤ b ∧ b < 3 ^ 2 ∧ 2 * b ≡ 1 [ZMOD 3 ^ 2]) ∧
      (∀ c b : ℤ, ∀ i : ℕ, 1 ≤ i → 2 * c ≡ 1 [ZMOD 3] →
        2 * b ≡ 1 [ZMOD 3 ^ (i - 1)] →
        2 * ((b - (2 * b - 1) * c) % 3 ^ i) ≡ 1 [ZMOD 3 ^ i]) :=
  C3_invmod_correct 3 2 2 (by norm_num) (by norm_num) (by decide) (by norm_num)

/-! ### Claim C8: multiplication by the inverse gives one -/

lemma ofInt_one {p : ℤ} (hp2 : 2 ≤ p) : PAdicFloat.ofInt 1 p = ⟨p, 1, 0⟩ := by
  unfold PAdicFloat.ofInt
  rw [int_val_of_not_dvd hp2 (int_not_dvd_one hp2)]
  have h1 : (1:ℤ) < p ^ _PADIC_PRECISION := by
    rw [PREC_eq]
    exact one_lt_pow₀ (by omega) (by norm_num)
  simp only [pow_zero, Int.fdiv_one, Nat.cast_zero]
  rw [Int.emod_eq_of_lt (by norm_num) h1]

/-- C8, counterexample to the claim as stated: the numeral `p^64`
(prime 2, significand 1, exponent 64) is canonical, non-zero, non-infinite
and non-NaN, but `invert` clamps its reciprocal's exponent `0 - 64 = -64`
below `_MIN_PADIC_EXPONENT` to the Infinity sentinel, so
`multiply(a, invert(a))` is Infinity, not `fromInteger(1, 2)`. -/
theorem C8_counterexample :
    (PAdicFloat.mk 2 1 64).normalize = PAdicFloat.mk 2 1 64 ∧
      (PAdicFloat.mk 2 1 64).iszero = false ∧
      (PAdicFloat.mk 2 1 64).isinf = false ∧
      (PAdicFloat.mk 2 1 64).isNaN = false ∧
      ((PAdicFloat.mk 2 1 64).invert).map ((PAdicFloat.mk 2 1 64).mul) ≠
        some (PAdicFloat.ofInt 1 2) := by
  refine ⟨by decide, by decide, by decide, by decide, by decide⟩

/-- C8 (amended): for a prime `p ≥ 2` and a canonical numeral `a` (significand
a unit in `[0, p^65)`, exponent in range) that is not Zero, Infinity or NaN
and whose exponent is *strictly below* `_MAX_PADIC_EXPONENT`,
`multiply(a, invert(a)) = fromInteger(1, a.prime)`; at exponent exactly
`_MAX_PADIC_EXPONENT` the inversion underflow-clamps to Infinity instead. -/
theorem C8_mul_invert (p s e : ℤ) (hp : Prime p) (hp2 : 2 ≤ p)
    (hs0 : 0 ≤ s) (hs1 : s < p ^ 65) (hsd : ¬ p ∣ s)
    (he1 : -63 ≤ e) (he2 : e ≤ 63) :
    ((PAdicFloat.mk p s e).invert).map ((PAdicFloat.mk p s e).mul) =
      some (PAdicFloat.ofInt 1 p) := by
  have hone : PAdicFloat.ofInt 1 p = ⟨p, 1, 0⟩ := ofInt_one hp2
  have h1lt : (1:ℤ) < p ^ 65 := one_lt_pow₀ (by omega) (by norm_num)
  have honen : (PAdicFloat.mk p 1 0).normalize = ⟨p, 1, 0⟩ :=
    normalize_fix hp2 (by omega) (by omega) (by norm_num) h1lt (int_not_dvd_one hp2)
  have ha_norm : (PAdicFloat.mk p s e).normalize = ⟨p, s, e⟩ :=
    normalize_fix hp2 he1 (by omega) hs0 hs1 hsd
  obtain ⟨c, hcsome, hc0, hc1, hcmod⟩ :=
    _invmod_spec hp2 (prime_gcd_one hp hp2 hsd) (show 1 ≤ 65 by norm_num)
  have hcd : ¬ p ∣ c := by
    intro hdc
    apply int_not_dvd_one hp2
    have hdvd65 : (p ^ 65 : ℤ) ∣ 1 - s * c := Int.modEq_iff_dvd.1 hcmod
    have hdp : p ∣ 1 - s * c := dvd_trans (dvd_pow_self p (by norm_num)) hdvd65
    have hsc : p ∣ s * c := Dvd.dvd.mul_left hdc s
    have : (1:ℤ) = (1 - s * c) + s * c := by ring
    rw [this]
    exact dvd_add hdp hsc
  have c1 : (PAdicFloat.mk p 1 0).isNaN = false := by
    rw [isNaN_false_iff]
    dsimp only
    omega
  have c2 : (PAdicFloat.mk p s e).isNaN = false := by
    rw [isNaN_false_iff]
    dsimp only
    omega
  have c3 : (PAdicFloat.mk p s e).iszero = false := by
    rw [iszero_false_iff]
    dsimp only
    omega
  have c4 : (PAdicFloat.mk p s e).isinf = false := by
    rw [isinf_false_iff]
    dsimp only
    omega
  have hinv : (PAdicFloat.mk p s e).invert = some ⟨p, c, 0 - e⟩ := by
    unfold PAdicFloat.invert PAdicFloat.truediv
    dsimp only
    rw [hone, honen, ha_norm]
    simp only [c1, c2, c3, c4, Bool.or_self, Bool.false_eq_true, if_false]
    rw [if_neg (show ¬((0:ℤ) - e < _MIN_PADIC_EXPONENT) by rw [MIN_exp_eq]; omega)]
    rw [PREC_eq, hcsome]
    dsimp only [Option.map]
    rw [one_mul, Int.emod_eq_of_lt hc0 hc1]
  have c5 : (PAdicFloat.mk p c (0 - e)).isNaN = false := by
    rw [isNaN_false_iff]
    dsimp only
    omega
  have c6 : (PAdicFloat.mk p c (0 - e)).isinf = false := by
    rw [isinf_false_iff]
    dsimp only
    omega
  have hb_norm : (PAdicFloat.mk p c (0 - e)).normalize = ⟨p, c, 0 - e⟩ :=
    normalize_fix hp2 (by omega) (by omega) hc0 hc1 hcd
  have hfin : (PAdicFloat.mk p s e).mul ⟨p, c, 0 - e⟩ = ⟨p, 1, 0⟩ := by
    unfold PAdicFloat.mul
    dsimp only
    rw [ha_norm, hb_norm]
    simp only [c2, c4, c5, c6, Bool.or_self, Bool.false_eq_true, if_false]
    rw [if_neg (show ¬(e + (0 - e) > _MAX_PADIC_EXPONENT) by rw [MAX_exp_eq]; omega)]
    have hsc1 : (s * c) % p ^ 65 = 1 := by
      have heq : (s * c) % p ^ 65 = 1 % p ^ 65 := hcmod
      rw [heq, Int.emod_eq_of_lt (by norm_num) h1lt]
    rw [PREC_eq, hsc1]
    have : e + (0 - e) = 0 := by ring
    rw [this]
  rw [hinv]
  dsimp only [Option.map]
  rw [hfin, hone]

/-- C8 witness: the theorem applied to the canonical numeral with prime 3,
significand 2, exponent 0, whose inverse times itself is `fromInteger(1, 3)`. -/
theorem C8_witness :
    ((PAdicFloat.mk 3 2 0).invert).map ((PAdicFloat.mk 3 2 0).mul) =
      some (PAdicFloat.ofInt 1 3) :=
  C8_mul_invert 3 2 0 (by norm_num) (by norm_num) (by norm_num) (by norm_num)
    (by decide) (by norm_num) (by norm_num)
